import Mathlib

/-!
Shallow embedding of the GitHub contribution-statistics collector
(src/github-contribution-stats.ts).  Timestamps are modelled as `Int`
(milliseconds since the epoch, the value a JS `Date` compares by); the
JS comparison `d1 >= d2` becomes `≥` on `Int`.  The mutable `user_stats`
object (string keys, insertion order preserved) is modelled as an
association list `List (String × AuthorAcc)`; JS object-key updates touch
the first (unique) occurrence of a key and new keys are appended, which
matches JS enumeration order.  Network calls are modelled by oracles
passed as function arguments.
-/

/-- JS truthiness of an optional numeric id: `undefined`/`null` and `0` are falsy. -/
def idTruthy : Option Nat → Bool
  | none => false
  | some n => n != 0

/-- JS `x || y` for optional numeric ids followed by `|| null`:
the first truthy operand wins, otherwise `null`. -/
def jsOrId (x y : Option Nat) : Option Nat :=
  if idTruthy x then x else if idTruthy y then y else none

/-- JS `x || d` where `x` is an optional string: `undefined`, `null` and
the empty string are falsy and fall through to the default. -/
def jsOrS (x : Option String) (d : String) : String :=
  match x with
  | none => d
  | some s => if s = "" then d else s

/-- First-occurrence lookup in an association list (JS property read). -/
def lookupA {α : Type} : List (String × α) → String → Option α
  | [], _ => none
  | (a, v) :: t, k => if a = k then some v else lookupA t k

/-- Update the first occurrence of a key, leave the list unchanged if absent
(JS property write on an existing key). -/
def updateFirst {α : Type} : List (String × α) → String → (α → α) → List (String × α)
  | [], _, _ => []
  | (a, v) :: t, k, f => if a = k then (a, f v) :: t else (a, v) :: updateFirst t k f

/-- Per-repository opened/closed counters (`{ opened: 0, closed: 0 }`). -/
structure PRCounts where
  opened : Nat
  closed : Nat
deriving DecidableEq, Repr

/-- One author entry of the mutable `user_stats` bag. -/
structure AuthorAcc where
  user_id : Option Nat
  commits_by_repo : List (String × Nat)
  pull_requests_by_repo : List (String × PRCounts)
  total_commits : Nat
  total_prs_opened : Nat
  total_prs_closed : Nat
deriving DecidableEq, Repr

/-- The `user_stats` object: author login → accumulator, insertion order kept. -/
abbrev UserStats := List (String × AuthorAcc)

/-- The fresh accumulator created on first sight of an author. -/
def newAcc (uid : Option Nat) : AuthorAcc :=
  { user_id := uid
    commits_by_repo := []
    pull_requests_by_repo := []
    total_commits := 0
    total_prs_opened := 0
    total_prs_closed := 0 }

/-- The author-creation block shared by the commit and both PR paths:
create the accumulator on first sight, else adopt the first truthy user id
(`else if (user_id && !user_stats[a].user_id)`). -/
def ensureAuthor (st : UserStats) (a : String) (uid : Option Nat) : UserStats :=
  match lookupA st a with
  | none => st ++ [(a, newAcc uid)]
  | some acc =>
      if idTruthy uid && !(idTruthy acc.user_id) then
        updateFirst st a (fun x => { x with user_id := uid })
      else st

/-- `if (!m[repo]) m[repo] = { opened: 0, closed: 0 }` on an author entry. -/
def ensurePRRepo (st : UserStats) (a r : String) : UserStats :=
  updateFirst st a (fun acc =>
    match lookupA acc.pull_requests_by_repo r with
    | some _ => acc
    | none => { acc with pull_requests_by_repo := acc.pull_requests_by_repo ++ [(r, ⟨0, 0⟩)] })

/-- `m[r].opened++` on the first occurrence of `r`.  The key is always
present where this is called (`ensurePRRepo` just inserted it); the
append branch is unreachable there. -/
def bumpOpened1 : List (String × PRCounts) → String → List (String × PRCounts)
  | [], r => [(r, ⟨1, 0⟩)]
  | (a, v) :: t, r => if a = r then (a, ⟨v.opened + 1, v.closed⟩) :: t else (a, v) :: bumpOpened1 t r

/-- `m[r].closed++` on the first occurrence of `r` (see `bumpOpened1`). -/
def bumpClosed1 : List (String × PRCounts) → String → List (String × PRCounts)
  | [], r => [(r, ⟨0, 1⟩)]
  | (a, v) :: t, r => if a = r then (a, ⟨v.opened, v.closed + 1⟩) :: t else (a, v) :: bumpClosed1 t r

/-- `user_stats[a].pull_requests_by_repo[r].opened++; user_stats[a].total_prs_opened++`. -/
def doOpen (st : UserStats) (a r : String) : UserStats :=
  updateFirst st a (fun acc =>
    { acc with pull_requests_by_repo := bumpOpened1 acc.pull_requests_by_repo r
               total_prs_opened := acc.total_prs_opened + 1 })

/-- `user_stats[a].pull_requests_by_repo[r].closed++; user_stats[a].total_prs_closed++`. -/
def doClose (st : UserStats) (a r : String) : UserStats :=
  updateFirst st a (fun acc =>
    { acc with pull_requests_by_repo := bumpClosed1 acc.pull_requests_by_repo r
               total_prs_closed := acc.total_prs_closed + 1 })

/-- The `pr.user` object of a REST pull-request item. -/
structure PRUser where
  login : String
  id : Option Nat
  node_id : Option Nat
deriving DecidableEq, Repr

/-- A pull-request item as consumed by `processPullRequest` and the
pagination fallback. -/
structure PR where
  number : Nat
  user : Option PRUser
  created_at : Int
  closed_at : Option Int
  updated_at : Int
deriving DecidableEq, Repr

/-- `pr.user ? pr.user.login : "Unknown"`. -/
def prAuthor (pr : PR) : String :=
  match pr.user with
  | some u => u.login
  | none => "Unknown"

/-- `pr.user?.id || pr.user?.node_id || null`. -/
def prUid (pr : PR) : Option Nat :=
  jsOrId (pr.user.bind (·.id)) (pr.user.bind (·.node_id))

/-- `processPullRequest` (src lines 316-355): ensure the author entry and
the per-repository PR entry exist, then increment opened iff
`created_at >= cutoff` and closed iff `closed_at` exists and is `>= cutoff`. -/
def processPullRequest (pr : PR) (repo_name : String) (cutoff : Int) (st : UserStats) : UserStats :=
  let a := prAuthor pr
  let st1 := ensureAuthor st a (prUid pr)
  let st2 := ensurePRRepo st1 a repo_name
  let st3 := if pr.created_at ≥ cutoff then doOpen st2 a repo_name else st2
  match pr.closed_at with
  | some cl => if cl ≥ cutoff then doClose st3 a repo_name else st3
  | none => st3

/-- The per-item body inlined in `fetchPRsWithPagination` (src lines 402-445),
textually identical to `processPullRequest`. -/
def processPagePR (pr : PR) (repo_name : String) (cutoff : Int) (st : UserStats) : UserStats :=
  let a := prAuthor pr
  let st1 := ensureAuthor st a (prUid pr)
  let st2 := ensurePRRepo st1 a repo_name
  let st3 := if pr.created_at ≥ cutoff then doOpen st2 a repo_name else st2
  match pr.closed_at with
  | some cl => if cl ≥ cutoff then doClose st3 a repo_name else st3
  | none => st3

/-- The `user` field of a commit author as returned by the GraphQL query. -/
structure CommitUser where
  login : String
  id : Option Nat
  databaseId : Option Nat
deriving DecidableEq, Repr

/-- A commit node from the branch-history GraphQL query. -/
structure Commit where
  oid : String
  user : Option CommitUser
  name : Option String
  email : Option String
deriving DecidableEq, Repr

/-- `commit.author.user?.login || commit.author.name || commit.author.email || "Unknown"`. -/
def resolveCommitAuthor (c : Commit) : String :=
  jsOrS (c.user.map (·.login)) (jsOrS c.name (jsOrS c.email "Unknown"))

/-- `commit.author.user?.id || commit.author.user?.databaseId || null`. -/
def resolveCommitUid (c : Commit) : Option Nat :=
  jsOrId (c.user.bind (·.id)) (c.user.bind (·.databaseId))

/-- `m[repo]++` after `if (!m[repo]) m[repo] = 0`: increment the first
occurrence, or append the key with count 1. -/
def bumpCommits : List (String × Nat) → String → List (String × Nat)
  | [], r => [(r, 1)]
  | (a, v) :: t, r => if a = r then (a, v + 1) :: t else (a, v) :: bumpCommits t r

/-- `user_stats[a].commits_by_repo[repo]++; user_stats[a].total_commits++`. -/
def doCommit (st : UserStats) (a r : String) : UserStats :=
  updateFirst st a (fun acc =>
    { acc with commits_by_repo := bumpCommits acc.commits_by_repo r
               total_commits := acc.total_commits + 1 })

/-- The per-commit body of `processBranchCommits` (src lines 237-264):
skip commits whose oid is already in the repository-scoped seen set,
otherwise mark seen and credit the resolved author. -/
def processCommit (repo_name : String) (st : List String × UserStats) (c : Commit) :
    List String × UserStats :=
  if c.oid ∈ st.1 then st
  else
    let a := resolveCommitAuthor c
    let st1 := ensureAuthor st.2 a (resolveCommitUid c)
    (c.oid :: st.1, doCommit st1 a repo_name)

/-- `processBranchCommits`: fold the per-commit body over one branch history. -/
def processBranchCommits (repo_name : String) (branch : List Commit)
    (st : List String × UserStats) : List String × UserStats :=
  branch.foldl (processCommit repo_name) st

/-- `processRepositoryBranches`: process every branch of the repository in order,
sharing the seen set and the stats bag. -/
def processRepositoryBranches (repo_name : String) (branches : List (List Commit))
    (st : List String × UserStats) : List String × UserStats :=
  branches.foldl (fun s b => processBranchCommits repo_name b s) st

/-- Outcome of one attempt of the paginated `GET /repos/:o/:r/pulls` call.
The code discriminates `error.status === 403 && message includes rate limit`
from every other error; the two error classes are modelled directly. -/
inductive FetchResult where
  | success (prs : List PR)
  | rateLimit
  | otherError
deriving DecidableEq, Repr

/-- Result of the pagination fallback: the running `total_prs` counter, the
final stats bag, the sequence of page numbers requested (in order), and
whether the loop exited by itself (`false` means the fuel ran out). -/
structure PagOut where
  total_prs : Nat
  stats : UserStats
  attempts : List Int
  completed : Bool
deriving DecidableEq, Repr

/-- The `while (has_more_pages)` loop of `fetchPRsWithPagination`
(src lines 362-461).  `fe n p` is the outcome of the `n`-th fetch attempt
(0-based), requesting page `p`.  One iteration: on success, record
`has_more_pages = (items == 100)`, increment the page counter, filter to
items with `updated_at >= cutoff`, process each, and clear `has_more_pages`
when the page matched nothing and the (incremented) counter exceeds 2; on a
rate-limit error decrement the page counter and loop again; on any other
error stop.  The inter-page and cooldown sleeps are timing-only and have no
effect on the state. -/
def fetchLoop (fe : Nat → Int → FetchResult) (repo_name : String) (cutoff : Int) :
    Nat → Int → Nat → Nat → UserStats → List Int → PagOut
  | 0, _, _, tot, st, tr => ⟨tot, st, tr.reverse, false⟩
  | fuel + 1, page, att, tot, st, tr =>
    match fe att page with
    | .success prs =>
      let filtered := prs.filter (fun pr => pr.updated_at ≥ cutoff)
      let tot2 := tot + filtered.length
      let st2 := filtered.foldl (fun s p => processPagePR p repo_name cutoff s) st
      if prs.length = 100 ∧ ¬(filtered.length = 0 ∧ page + 1 > 2) then
        fetchLoop fe repo_name cutoff fuel (page + 1) (att + 1) tot2 st2 (page :: tr)
      else ⟨tot2, st2, (page :: tr).reverse, true⟩
    | .rateLimit => fetchLoop fe repo_name cutoff fuel (page - 1) (att + 1) tot st (page :: tr)
    | .otherError => ⟨tot, st, (page :: tr).reverse, true⟩

/-- `fetchPRsWithPagination`: run the loop from page 1 with fresh counters. -/
def fetchPRsWithPagination (fe : Nat → Int → FetchResult) (repo_name : String)
    (cutoff : Int) (st : UserStats) (fuel : Nat) : PagOut :=
  fetchLoop fe repo_name cutoff fuel 1 0 0 st []

/-- One item of the `GET /search/issues` response: the owner/repo extracted
by the URL regular expression (`none` when the URL does not match or the
`pull_request` field is missing — both are skipped, the latter through the
per-item catch), plus the PR fields. -/
structure SearchItem where
  url_match : Option (String × String)
  item : PR
deriving DecidableEq, Repr

/-- `processPullRequestsFromSearch` (src lines 298-314): keep only items whose
URL confirms the target owner/repository, and process each kept item. -/
def processPullRequestsFromSearch (items : List SearchItem) (owner_login repo_name : String)
    (cutoff : Int) (st : UserStats) : UserStats :=
  items.foldl (fun s it =>
    match it.url_match with
    | some (o, r) =>
        if o = owner_login ∧ r = repo_name then processPullRequest it.item repo_name cutoff s
        else s
    | none => s) st

/-- Outcome of the primary `GET /search/issues` call. -/
inductive SearchOutcome where
  | ok (total_count : Nat) (items : List SearchItem)
  | err
deriving DecidableEq, Repr

/-- `processRepositoryPullRequests` (src lines 267-296): run the primary
search; on success process its items and, when `total_count === 0`, also run
the pagination fallback; on a search error run the fallback alone.  The
second component records whether the fallback ran. -/
def processRepositoryPullRequests (search : SearchOutcome) (fe : Nat → Int → FetchResult)
    (owner_login repo_name : String) (cutoff : Int) (st : UserStats) (fuel : Nat) :
    UserStats × Bool :=
  match search with
  | .ok tc items =>
      let st2 := processPullRequestsFromSearch items owner_login repo_name cutoff st
      if tc = 0 then ((fetchPRsWithPagination fe repo_name cutoff st2 fuel).stats, true)
      else (st2, false)
  | .err => ((fetchPRsWithPagination fe repo_name cutoff st fuel).stats, true)

/-- A repository as consumed by `filterUpdatedRepositories`; absent
`pushed_at`/`updated_at` model the JS falsy fallback `|| 0`. -/
structure Repo where
  name : String
  owner_login : String
  pushed_at : Option Int
  updated_at : Option Int
deriving DecidableEq, Repr

/-- `latest_activity = last_pushed > last_updated ? last_pushed : last_updated`
with `new Date(x || 0)`. -/
def latestActivity (r : Repo) : Int :=
  let lp := r.pushed_at.getD 0
  let lu := r.updated_at.getD 0
  if lp > lu then lp else lu

/-- `filterUpdatedRepositories` (src lines 127-139). -/
def filterUpdatedRepositories (repos : List Repo) (cutoff : Int) : List Repo :=
  repos.filter (fun r => latestActivity r ≥ cutoff)

/-- An immutable per-repository contribution row. -/
structure RepoContribution where
  repo_name : String
  commits : Nat
  prs_opened : Nat
  prs_closed : Nat
deriving DecidableEq, Repr

/-- An immutable per-author summary. -/
structure UserStat where
  name : String
  user_id : Option Nat
  total_commits : Nat
  total_prs_opened : Nat
  total_prs_closed : Nat
  repo_contributions : List RepoContribution
deriving DecidableEq, Repr

/-- A successful installation record. -/
structure InstallationStats where
  id : Nat
  account : String
  account_type : String
  period_days : Nat
  user_stats : List UserStat
deriving DecidableEq, Repr

/-- Either a success record or an error record for one installation. -/
inductive InstallationResult where
  | stats (s : InstallationStats)
  | err (id : Nat) (account : String) (msg : String)
deriving DecidableEq, Repr

/-- Iteration order of `new Set([...a, ...b])`: first occurrence wins,
insertion order kept. -/
def repoKeySet (l : List String) : List String :=
  l.foldl (fun acc k => if k ∈ acc then acc else acc ++ [k]) []

/-- The per-author conversion step of `formatInstallationStats`
(src lines 476-503): totals copied over, one row per repository touched by
commits or PRs, missing sides read as 0 (`|| 0`). -/
def buildUserStat (user_name : String) (acc : AuthorAcc) : UserStat :=
  { name := user_name
    user_id := acc.user_id
    total_commits := acc.total_commits
    total_prs_opened := acc.total_prs_opened
    total_prs_closed := acc.total_prs_closed
    repo_contributions :=
      (repoKeySet (acc.commits_by_repo.map (·.1) ++ acc.pull_requests_by_repo.map (·.1))).map
        (fun r =>
          { repo_name := r
            commits := (lookupA acc.commits_by_repo r).getD 0
            prs_opened := ((lookupA acc.pull_requests_by_repo r).map (·.opened)).getD 0
            prs_closed := ((lookupA acc.pull_requests_by_repo r).map (·.closed)).getD 0 }) }

/-- `formatInstallationStats` (src lines 467-506): `Object.entries` runs in
insertion order over the stats bag. -/
def formatInstallationStats (inst_id : Nat) (account account_type : String)
    (days_to_look_back : Nat) (st : UserStats) : InstallationStats :=
  { id := inst_id
    account := account
    account_type := account_type
    period_days := days_to_look_back
    user_stats := st.map (fun p => buildUserStat p.1 p.2) }

/-- The comparator `(a, b) => keyOf b - keyOf a` fed to the (stable, per
ES2019) `Array.prototype.sort`, acting on index-tagged elements: descending
by key, ties in ascending original-index order. -/
def jsLex {α : Type} (key : α → Nat) (x y : Nat × α) : Prop :=
  key y.2 < key x.2 ∨ (key x.2 = key y.2 ∧ x.1 ≤ y.1)

instance {α : Type} (key : α → Nat) : DecidableRel (jsLex key) := fun x y => by
  unfold jsLex; infer_instance

instance {α : Type} (key : α → Nat) : IsTotal (Nat × α) (jsLex key) where
  total x y := by
    unfold jsLex
    rcases Nat.lt_trichotomy (key x.2) (key y.2) with h | h | h
    · exact Or.inr (Or.inl h)
    · rcases Nat.le_total x.1 y.1 with h2 | h2
      · exact Or.inl (Or.inr ⟨h, h2⟩)
      · exact Or.inr (Or.inr ⟨h.symm, h2⟩)
    · exact Or.inl (Or.inl h)

instance {α : Type} (key : α → Nat) : IsTrans (Nat × α) (jsLex key) where
  trans x y z hxy hyz := by
    unfold jsLex at hxy hyz ⊢
    rcases hxy with h1 | ⟨h1, h1i⟩ <;> rcases hyz with h2 | ⟨h2, h2i⟩
    · exact Or.inl (h2.trans h1)
    · exact Or.inl (h2 ▸ h1)
    · exact Or.inl (h1 ▸ h2)
    · exact Or.inr ⟨h1.trans h2, h1i.trans h2i⟩

/-- The index-tagged stable sort underlying the JS `sort` call. -/
def sortIdx {α : Type} (key : α → Nat) (l : List α) : List (Nat × α) :=
  List.insertionSort (jsLex key) l.enum

/-- A JS stable descending sort by a numeric key: the unique ordering by
(key descending, original index ascending). -/
def jsSortDesc {α : Type} (key : α → Nat) (l : List α) : List α :=
  (sortIdx key l).map (·.2)

/-- The author sort key `total_commits + total_prs_opened + total_prs_closed`. -/
def userKey (u : UserStat) : Nat :=
  u.total_commits + u.total_prs_opened + u.total_prs_closed

/-- The repository-row sort key `commits + prs_opened + prs_closed`. -/
def repoKey (rc : RepoContribution) : Nat :=
  rc.commits + rc.prs_opened + rc.prs_closed

/-- The period label: `"week"` for 7 days, `"month"` for 30, else `"<N> days"`. -/
def periodLabel (n : Nat) : String :=
  if n = 7 then "week" else if n = 30 then "month" else toString n ++ " days"

/-- The header line of a success block. -/
def statsHeader (s : InstallationStats) : String :=
  "📊 Statistics for " ++ s.account ++ " (" ++ s.account_type ++ ") - Last "
    ++ periodLabel s.period_days ++ ":"

/-- `user.repo_contributions.sort(...)` mutates the row list in place. -/
def sortRepoContribs (u : UserStat) : UserStat :=
  { u with repo_contributions := jsSortDesc repoKey u.repo_contributions }

/-- The identity line of a user block; the source embeds a leading newline in
the pushed string itself. -/
def userNameLine (u : UserStat) : String :=
  "\n👤 " ++ u.name ++ (match u.user_id with
    | some n => if n ≠ 0 then " (ID: " ++ toString n ++ ")" else ""
    | none => "") ++ ":"

/-- The totals line of a user block. -/
def userTotalLine (u : UserStat) : String :=
  "  Total: " ++ toString u.total_commits ++ " commits, " ++ toString u.total_prs_opened
    ++ " PRs opened, " ++ toString u.total_prs_closed ++ " PRs closed"

/-- One per-repository line. -/
def repoLine (rc : RepoContribution) : String :=
  "    - " ++ rc.repo_name ++ ": " ++ toString rc.commits ++ " commits, "
    ++ toString rc.prs_opened ++ " PRs opened, " ++ toString rc.prs_closed ++ " PRs closed"

/-- The body of one user: identity, totals, then the in-place-sorted
repository rows. -/
def renderUserLines (u : UserStat) : List String :=
  let u2 := sortRepoContribs u
  [userNameLine u2, userTotalLine u2, "  Contributions by repository:"]
    ++ u2.repo_contributions.map repoLine

/-- One success block of `generateReport` (src lines 517-550) as a pure
state transformer: the produced lines and the mutated record (its
`user_stats` sorted in place, each user with sorted rows). -/
def statsBlock (s : InstallationStats) : List String × InstallationStats :=
  let us := if s.user_stats.length > 0 then jsSortDesc userKey s.user_stats else s.user_stats
  let body := if s.user_stats.length > 0 then us.flatMap renderUserLines
              else ["  No contributions found in the period."]
  (statsHeader s :: body ++ [""], { s with user_stats := us.map sortRepoContribs })

/-- The error line of an error record; the loop `continue`s without the
blank separator. -/
def errLine (account msg : String) : String :=
  "⚠️ Installation " ++ account ++ ": " ++ msg

/-- The loop body of `generateReport`: push this installation block onto the
report lines and carry the (possibly mutated) record. -/
def reportStep (acc : List String × List InstallationResult) (res : InstallationResult) :
    List String × List InstallationResult :=
  match res with
  | .err i a m => (acc.1 ++ [errLine a m], acc.2 ++ [.err i a m])
  | .stats s =>
      let b := statsBlock s
      (acc.1 ++ b.1, acc.2 ++ [.stats b.2])

/-- `generateReport` (src lines 508-554) as a state transformer: the joined
report text plus the post-call state of the results list (JS `sort` mutates
the arrays the records hold). -/
def generateReport (results : List InstallationResult) : String × List InstallationResult :=
  let out := results.foldl reportStep ([], [])
  (String.intercalate "\n" out.1, out.2)

/-! ### Association-list lemmas -/

theorem lookupA_append {α : Type} (m l : List (String × α)) (k : String) :
    lookupA (m ++ l) k = match lookupA m k with
      | some v => some v
      | none => lookupA l k := by
  induction m with
  | nil => simp [lookupA]
  | cons h t ih =>
      obtain ⟨a, v⟩ := h
      by_cases hak : a = k <;> simp [lookupA, hak, ih]

theorem lookupA_updateFirst {α : Type} (m : List (String × α)) (k : String) (f : α → α) :
    lookupA (updateFirst m k f) k = (lookupA m k).map f := by
  induction m with
  | nil => simp [lookupA, updateFirst]
  | cons h t ih =>
      obtain ⟨a, v⟩ := h
      by_cases hak : a = k <;> simp [lookupA, updateFirst, hak, ih]

theorem lookupA_bumpOpened1 (m : List (String × PRCounts)) (r : String) :
    lookupA (bumpOpened1 m r) r =
      some ⟨((lookupA m r).map (·.opened)).getD 0 + 1, ((lookupA m r).map (·.closed)).getD 0⟩ := by
  induction m with
  | nil => simp [lookupA, bumpOpened1]
  | cons h t ih =>
      obtain ⟨a, v⟩ := h
      by_cases hak : a = r <;> simp [lookupA, bumpOpened1, hak, ih]

theorem lookupA_bumpClosed1 (m : List (String × PRCounts)) (r : String) :
    lookupA (bumpClosed1 m r) r =
      some ⟨((lookupA m r).map (·.opened)).getD 0, ((lookupA m r).map (·.closed)).getD 0 + 1⟩ := by
  induction m with
  | nil => simp [lookupA, bumpClosed1]
  | cons h t ih =>
      obtain ⟨a, v⟩ := h
      by_cases hak : a = r <;> simp [lookupA, bumpClosed1, hak, ih]

theorem lookupA_bumpCommits (m : List (String × Nat)) (r : String) :
    lookupA (bumpCommits m r) r = some ((lookupA m r).getD 0 + 1) := by
  induction m with
  | nil => simp [lookupA, bumpCommits]
  | cons h t ih =>
      obtain ⟨a, v⟩ := h
      by_cases hak : a = r <;> simp [lookupA, bumpCommits, hak, ih]

/-! ### Count accessors (the values `formatInstallationStats` would read) -/

/-- The opened counter of author `a` for repository `r`, absent entries read 0. -/
def openedCount (st : UserStats) (a r : String) : Nat :=
  match lookupA st a with
  | none => 0
  | some acc => ((lookupA acc.pull_requests_by_repo r).map (·.opened)).getD 0

/-- The closed counter of author `a` for repository `r`, absent entries read 0. -/
def closedCount (st : UserStats) (a r : String) : Nat :=
  match lookupA st a with
  | none => 0
  | some acc => ((lookupA acc.pull_requests_by_repo r).map (·.closed)).getD 0

/-- The opened total of author `a`, absent entries read 0. -/
def totOpened (st : UserStats) (a : String) : Nat :=
  ((lookupA st a).map (·.total_prs_opened)).getD 0

/-- The closed total of author `a`, absent entries read 0. -/
def totClosed (st : UserStats) (a : String) : Nat :=
  ((lookupA st a).map (·.total_prs_closed)).getD 0

/-- The commit total of author `a`, absent entries read 0. -/
def totCommitsAt (st : UserStats) (a : String) : Nat :=
  ((lookupA st a).map (·.total_commits)).getD 0

/-- The commit counter of author `a` for repository `r`, absent entries read 0. -/
def commitsAt (st : UserStats) (a r : String) : Nat :=
  match lookupA st a with
  | none => 0
  | some acc => (lookupA acc.commits_by_repo r).getD 0

theorem lookupA_ensureAuthor (st : UserStats) (a : String) (u : Option Nat) :
    lookupA (ensureAuthor st a u) a =
      some (match lookupA st a with
        | none => newAcc u
        | some acc =>
            if idTruthy u && !(idTruthy acc.user_id) then { acc with user_id := u } else acc) := by
  unfold ensureAuthor
  cases h : lookupA st a with
  | none => rw [lookupA_append, h]; simp [lookupA]
  | some acc =>
      by_cases hc : (idTruthy u && !(idTruthy acc.user_id)) = true
      · simp only [hc, if_true, lookupA_updateFirst, h, Option.map_some']
      · simp only [hc, if_false]
        exact h

/-- Opened counter read off one accumulator. -/
def accOpenedAt (acc : AuthorAcc) (r : String) : Nat :=
  ((lookupA acc.pull_requests_by_repo r).map (·.opened)).getD 0

/-- Closed counter read off one accumulator. -/
def accClosedAt (acc : AuthorAcc) (r : String) : Nat :=
  ((lookupA acc.pull_requests_by_repo r).map (·.closed)).getD 0

theorem lookupA_ensurePRRepo (st : UserStats) (a r : String) :
    lookupA (ensurePRRepo st a r) a = (lookupA st a).map (fun acc =>
      match lookupA acc.pull_requests_by_repo r with
      | some _ => acc
      | none => { acc with pull_requests_by_repo := acc.pull_requests_by_repo ++ [(r, ⟨0, 0⟩)] }) :=
  lookupA_updateFirst st a _

theorem lookupA_doOpen (st : UserStats) (a r : String) (acc : AuthorAcc)
    (hl : lookupA st a = some acc) :
    lookupA (doOpen st a r) a =
      some { acc with pull_requests_by_repo := bumpOpened1 acc.pull_requests_by_repo r
                      total_prs_opened := acc.total_prs_opened + 1 } := by
  unfold doOpen
  rw [lookupA_updateFirst, hl]
  rfl

theorem lookupA_doClose (st : UserStats) (a r : String) (acc : AuthorAcc)
    (hl : lookupA st a = some acc) :
    lookupA (doClose st a r) a =
      some { acc with pull_requests_by_repo := bumpClosed1 acc.pull_requests_by_repo r
                      total_prs_closed := acc.total_prs_closed + 1 } := by
  unfold doClose
  rw [lookupA_updateFirst, hl]
  rfl

theorem lookupA_doCommit (st : UserStats) (a r : String) (acc : AuthorAcc)
    (hl : lookupA st a = some acc) :
    lookupA (doCommit st a r) a =
      some { acc with commits_by_repo := bumpCommits acc.commits_by_repo r
                      total_commits := acc.total_commits + 1 } := by
  unfold doCommit
  rw [lookupA_updateFirst, hl]
  rfl

/-- After the two ensure steps the author entry exists and all counters the
increment phase reads are the ones of the original bag. -/
theorem ensure_chain (st : UserStats) (a : String) (u : Option Nat) (r : String) :
    ∃ acc2, lookupA (ensurePRRepo (ensureAuthor st a u) a r) a = some acc2
      ∧ accOpenedAt acc2 r = openedCount st a r
      ∧ accClosedAt acc2 r = closedCount st a r
      ∧ acc2.total_prs_opened = totOpened st a
      ∧ acc2.total_prs_closed = totClosed st a
      ∧ acc2.total_commits = totCommitsAt st a := by
  rw [lookupA_ensurePRRepo, lookupA_ensureAuthor]
  cases h : lookupA st a with
  | none =>
      refine ⟨_, rfl, ?_, ?_, ?_, ?_, ?_⟩ <;>
        simp [newAcc, accOpenedAt, accClosedAt, openedCount, closedCount, totOpened, totClosed,
          totCommitsAt, lookupA, h]
  | some acc =>
      by_cases hc : (idTruthy u && !(idTruthy acc.user_id)) = true
      · cases hp : lookupA acc.pull_requests_by_repo r with
        | none =>
            refine ⟨_, rfl, ?_, ?_, ?_, ?_, ?_⟩ <;>
              simp [hc, hp, accOpenedAt, accClosedAt, openedCount, closedCount, totOpened,
                totClosed, totCommitsAt, h, lookupA_append, lookupA]
        | some pc =>
            refine ⟨_, rfl, ?_, ?_, ?_, ?_, ?_⟩ <;>
              simp [hc, hp, accOpenedAt, accClosedAt, openedCount, closedCount, totOpened,
                totClosed, totCommitsAt, h]
      · cases hp : lookupA acc.pull_requests_by_repo r with
        | none =>
            refine ⟨_, rfl, ?_, ?_, ?_, ?_, ?_⟩ <;>
              simp [hc, hp, accOpenedAt, accClosedAt, openedCount, closedCount, totOpened,
                totClosed, totCommitsAt, h, lookupA_append, lookupA]
        | some pc =>
            refine ⟨_, rfl, ?_, ?_, ?_, ?_, ?_⟩ <;>
              simp [hc, hp, accOpenedAt, accClosedAt, openedCount, closedCount, totOpened,
                totClosed, totCommitsAt, h]

/-- The closed-side increment a PR causes: 1 iff it has a closed time at or
after the cutoff. -/
def closedDelta (pr : PR) (cutoff : Int) : Nat :=
  match pr.closed_at with
  | some cl => if cl ≥ cutoff then 1 else 0
  | none => 0

/-- The opened-side increment a PR causes: 1 iff it was created at or after
the cutoff. -/
def openedDelta (pr : PR) (cutoff : Int) : Nat :=
  if pr.created_at ≥ cutoff then 1 else 0

theorem processPullRequest_eq (pr : PR) (repo_name : String) (cutoff : Int) (st : UserStats) :
    processPullRequest pr repo_name cutoff st =
      match pr.closed_at with
      | some cl =>
          if cl ≥ cutoff then
            doClose (if pr.created_at ≥ cutoff then
                doOpen (ensurePRRepo (ensureAuthor st (prAuthor pr) (prUid pr)) (prAuthor pr)
                  repo_name) (prAuthor pr) repo_name
              else ensurePRRepo (ensureAuthor st (prAuthor pr) (prUid pr)) (prAuthor pr) repo_name)
              (prAuthor pr) repo_name
          else
            (if pr.created_at ≥ cutoff then
                doOpen (ensurePRRepo (ensureAuthor st (prAuthor pr) (prUid pr)) (prAuthor pr)
                  repo_name) (prAuthor pr) repo_name
              else ensurePRRepo (ensureAuthor st (prAuthor pr) (prUid pr)) (prAuthor pr) repo_name)
      | none =>
          (if pr.created_at ≥ cutoff then
              doOpen (ensurePRRepo (ensureAuthor st (prAuthor pr) (prUid pr)) (prAuthor pr)
                repo_name) (prAuthor pr) repo_name
            else ensurePRRepo (ensureAuthor st (prAuthor pr) (prUid pr)) (prAuthor pr) repo_name) :=
  rfl

/-- Claim C6: for every pull request processed by either path, the opened
counter for the repository and the opened total increment by 1 iff the
creation time is at or after the cutoff, the closed counter and total
increment by 1 iff a closed time exists at or after the cutoff, the two
increments are independent, and the fallback path processes items exactly
like `processPullRequest`. -/
theorem processPullRequest_increments (pr : PR) (repo_name : String) (cutoff : Int)
    (st : UserStats) :
    openedCount (processPullRequest pr repo_name cutoff st) (prAuthor pr) repo_name
        = openedCount st (prAuthor pr) repo_name + openedDelta pr cutoff
      ∧ closedCount (processPullRequest pr repo_name cutoff st) (prAuthor pr) repo_name
        = closedCount st (prAuthor pr) repo_name + closedDelta pr cutoff
      ∧ totOpened (processPullRequest pr repo_name cutoff st) (prAuthor pr)
        = totOpened st (prAuthor pr) + openedDelta pr cutoff
      ∧ totClosed (processPullRequest pr repo_name cutoff st) (prAuthor pr)
        = totClosed st (prAuthor pr) + closedDelta pr cutoff
      ∧ processPagePR = processPullRequest := by
  obtain ⟨acc2, hl2, ho, hcc, hto, htc, hcm⟩ :=
    ensure_chain st (prAuthor pr) (prUid pr) repo_name
  have stage1 : ∃ acc3,
      lookupA (if pr.created_at ≥ cutoff then
          doOpen (ensurePRRepo (ensureAuthor st (prAuthor pr) (prUid pr)) (prAuthor pr) repo_name)
            (prAuthor pr) repo_name
        else ensurePRRepo (ensureAuthor st (prAuthor pr) (prUid pr)) (prAuthor pr) repo_name)
        (prAuthor pr) = some acc3
      ∧ accOpenedAt acc3 repo_name = openedCount st (prAuthor pr) repo_name + openedDelta pr cutoff
      ∧ accClosedAt acc3 repo_name = closedCount st (prAuthor pr) repo_name
      ∧ acc3.total_prs_opened = totOpened st (prAuthor pr) + openedDelta pr cutoff
      ∧ acc3.total_prs_closed = totClosed st (prAuthor pr) := by
    by_cases hcr : pr.created_at ≥ cutoff
    · rw [if_pos hcr]
      refine ⟨_, lookupA_doOpen _ _ _ _ hl2, ?_, ?_, ?_, ?_⟩
      · simp only [accOpenedAt, lookupA_bumpOpened1, Option.map_some', Option.getD_some]
        rw [← ho]
        simp [openedDelta, hcr, accOpenedAt]
      · simp only [accClosedAt, lookupA_bumpClosed1, lookupA_bumpOpened1, Option.map_some',
          Option.getD_some]
        rw [← hcc]
        simp [accClosedAt]
      · simp [openedDelta, hcr, hto]
      · exact htc
    · rw [if_neg hcr]
      refine ⟨acc2, hl2, ?_, hcc, ?_, htc⟩
      · simp [openedDelta, hcr, ho]
      · simp [openedDelta, hcr, hto]
  obtain ⟨acc3, hl3, ho3, hc3, hto3, htc3⟩ := stage1
  have stage2 : ∃ acc4,
      lookupA (processPullRequest pr repo_name cutoff st) (prAuthor pr) = some acc4
      ∧ accOpenedAt acc4 repo_name = openedCount st (prAuthor pr) repo_name + openedDelta pr cutoff
      ∧ accClosedAt acc4 repo_name = closedCount st (prAuthor pr) repo_name + closedDelta pr cutoff
      ∧ acc4.total_prs_opened = totOpened st (prAuthor pr) + openedDelta pr cutoff
      ∧ acc4.total_prs_closed = totClosed st (prAuthor pr) + closedDelta pr cutoff := by
    rw [processPullRequest_eq]
    cases hcl : pr.closed_at with
    | none =>
        exact ⟨acc3, hl3, ho3, by simp [closedDelta, hcl, hc3], hto3,
          by simp [closedDelta, hcl, htc3]⟩
    | some cl =>
        dsimp only
        by_cases hclc : cl ≥ cutoff
        · rw [if_pos hclc]
          refine ⟨_, lookupA_doClose _ _ _ _ hl3, ?_, ?_, ?_, ?_⟩
          · simp only [accOpenedAt, lookupA_bumpClosed1, Option.map_some', Option.getD_some]
            rw [← ho3]
            simp [accOpenedAt]
          · simp only [accClosedAt, lookupA_bumpClosed1, Option.map_some', Option.getD_some]
            rw [← hc3]
            simp [accClosedAt, closedDelta, hcl, hclc]
          · exact hto3
          · simp [closedDelta, hcl, hclc, htc3]
        · rw [if_neg hclc]
          exact ⟨acc3, hl3, ho3, by simp [closedDelta, hcl, hclc, hc3], hto3,
            by simp [closedDelta, hcl, hclc, htc3]⟩
  obtain ⟨acc4, hl4, ho4, hc4, hto4, htc4⟩ := stage2
  refine ⟨?_, ?_, ?_, ?_, rfl⟩
  · unfold openedCount
    rw [hl4]
    exact ho4
  · unfold closedCount
    rw [hl4]
    exact hc4
  · unfold totOpened
    rw [hl4]
    exact hto4
  · unfold totClosed
    rw [hl4]
    exact htc4

/-! ### The sum invariant (claim C5) -/

/-- Sum of the per-repository commit counters of one author. -/
def sumN (m : List (String × Nat)) : Nat := (m.map (·.2)).sum

/-- Sum of the per-repository opened counters of one author. -/
def sumO (m : List (String × PRCounts)) : Nat := (m.map (·.2.opened)).sum

/-- Sum of the per-repository closed counters of one author. -/
def sumC (m : List (String × PRCounts)) : Nat := (m.map (·.2.closed)).sum

/-- One accumulator satisfies the sum invariant: each running total equals
the sum of the corresponding per-repository map. -/
def EntryWf (acc : AuthorAcc) : Prop :=
  acc.total_commits = sumN acc.commits_by_repo
    ∧ acc.total_prs_opened = sumO acc.pull_requests_by_repo
    ∧ acc.total_prs_closed = sumC acc.pull_requests_by_repo

/-- Every accumulator in the stats bag satisfies the sum invariant. -/
def Wf (st : UserStats) : Prop := ∀ p ∈ st, EntryWf p.2

instance (acc : AuthorAcc) : Decidable (EntryWf acc) := by unfold EntryWf; infer_instance

instance (st : UserStats) : Decidable (Wf st) := by unfold Wf; infer_instance

theorem sumO_bumpOpened1 (m : List (String × PRCounts)) (r : String) :
    sumO (bumpOpened1 m r) = sumO m + 1 := by
  induction m with
  | nil => simp [sumO, bumpOpened1]
  | cons h t ih =>
      obtain ⟨a, v⟩ := h
      by_cases hak : a = r <;> simp [sumO, bumpOpened1, hak, sumO] at ih ⊢ <;> omega

theorem sumC_bumpOpened1 (m : List (String × PRCounts)) (r : String) :
    sumC (bumpOpened1 m r) = sumC m := by
  induction m with
  | nil => simp [sumC, bumpOpened1]
  | cons h t ih =>
      obtain ⟨a, v⟩ := h
      by_cases hak : a = r
      · simp [sumC, bumpOpened1, hak]
      · simp [sumC, bumpOpened1, hak] at ih ⊢; omega

theorem sumO_bumpClosed1 (m : List (String × PRCounts)) (r : String) :
    sumO (bumpClosed1 m r) = sumO m := by
  induction m with
  | nil => simp [sumO, bumpClosed1]
  | cons h t ih =>
      obtain ⟨a, v⟩ := h
      by_cases hak : a = r
      · simp [sumO, bumpClosed1, hak]
      · simp [sumO, bumpClosed1, hak] at ih ⊢; omega

theorem sumC_bumpClosed1 (m : List (String × PRCounts)) (r : String) :
    sumC (bumpClosed1 m r) = sumC m + 1 := by
  induction m with
  | nil => simp [sumC, bumpClosed1]
  | cons h t ih =>
      obtain ⟨a, v⟩ := h
      by_cases hak : a = r <;> simp [sumC, bumpClosed1, hak, sumC] at ih ⊢ <;> omega

theorem sumN_bumpCommits (m : List (String × Nat)) (r : String) :
    sumN (bumpCommits m r) = sumN m + 1 := by
  induction m with
  | nil => simp [sumN, bumpCommits]
  | cons h t ih =>
      obtain ⟨a, v⟩ := h
      by_cases hak : a = r <;> simp [sumN, bumpCommits, hak, sumN] at ih ⊢ <;> omega

theorem Wf_updateFirst (st : UserStats) (k : String) (f : AuthorAcc → AuthorAcc)
    (hf : ∀ acc, EntryWf acc → EntryWf (f acc)) (h : Wf st) : Wf (updateFirst st k f) := by
  induction st with
  | nil => simpa [updateFirst] using h
  | cons p t ih =>
      obtain ⟨a, v⟩ := p
      have hv : EntryWf v := h (a, v) (List.mem_cons_self _ _)
      have ht : Wf t := fun q hq => h q (List.mem_cons_of_mem _ hq)
      by_cases hak : a = k
      · simp only [updateFirst, hak, if_true]
        intro q hq
        rcases List.mem_cons.mp hq with hq | hq
        · rw [hq]; exact hf v hv
        · exact ht q hq
      · simp only [updateFirst, hak, if_false]
        intro q hq
        rcases List.mem_cons.mp hq with hq | hq
        · rw [hq]; exact hv
        · exact ih ht q hq

theorem Wf_ensureAuthor (st : UserStats) (a : String) (u : Option Nat) (h : Wf st) :
    Wf (ensureAuthor st a u) := by
  unfold ensureAuthor
  cases lookupA st a with
  | none =>
      intro q hq
      rcases List.mem_append.mp hq with hq | hq
      · exact h q hq
      · simp at hq
        rw [hq]
        simp [EntryWf, newAcc, sumN, sumO, sumC]
  | some acc =>
      by_cases hc : (idTruthy u && !(idTruthy acc.user_id)) = true
      · simp only [hc, if_true]
        exact Wf_updateFirst st a _ (fun x hx => hx) h
      · simpa [hc] using h

theorem Wf_ensurePRRepo (st : UserStats) (a r : String) (h : Wf st) :
    Wf (ensurePRRepo st a r) := by
  apply Wf_updateFirst st a _ _ h
  intro acc hacc
  cases hp : lookupA acc.pull_requests_by_repo r with
  | some _ => simpa [ensurePRRepo, hp] using hacc
  | none =>
      obtain ⟨h1, h2, h3⟩ := hacc
      exact ⟨h1, by simp [sumO] at h2 ⊢; simpa using h2, by simp [sumC] at h3 ⊢; simpa using h3⟩

theorem Wf_doOpen (st : UserStats) (a r : String) (h : Wf st) : Wf (doOpen st a r) := by
  apply Wf_updateFirst st a _ _ h
  intro acc hacc
  obtain ⟨h1, h2, h3⟩ := hacc
  exact ⟨h1, by simp [sumO_bumpOpened1, h2], by simp [sumC_bumpOpened1, h3]⟩

theorem Wf_doClose (st : UserStats) (a r : String) (h : Wf st) : Wf (doClose st a r) := by
  apply Wf_updateFirst st a _ _ h
  intro acc hacc
  obtain ⟨h1, h2, h3⟩ := hacc
  exact ⟨h1, by simp [sumO_bumpClosed1, h2], by simp [sumC_bumpClosed1, h3]⟩

theorem Wf_doCommit (st : UserStats) (a r : String) (h : Wf st) : Wf (doCommit st a r) := by
  apply Wf_updateFirst st a _ _ h
  intro acc hacc
  obtain ⟨h1, h2, h3⟩ := hacc
  exact ⟨by simp [sumN_bumpCommits, h1], h2, h3⟩

theorem Wf_processPullRequest (pr : PR) (r : String) (c : Int) (st : UserStats) (h : Wf st) :
    Wf (processPullRequest pr r c st) := by
  rw [processPullRequest_eq]
  have h2 : Wf (ensurePRRepo (ensureAuthor st (prAuthor pr) (prUid pr)) (prAuthor pr) r) :=
    Wf_ensurePRRepo _ _ _ (Wf_ensureAuthor _ _ _ h)
  have h3 : Wf (if pr.created_at ≥ c then
      doOpen (ensurePRRepo (ensureAuthor st (prAuthor pr) (prUid pr)) (prAuthor pr) r)
        (prAuthor pr) r
    else ensurePRRepo (ensureAuthor st (prAuthor pr) (prUid pr)) (prAuthor pr) r) := by
    by_cases hcr : pr.created_at ≥ c
    · rw [if_pos hcr]; exact Wf_doOpen _ _ _ h2
    · rwa [if_neg hcr]
  cases pr.closed_at with
  | none => exact h3
  | some cl =>
      dsimp only
      by_cases hclc : cl ≥ c
      · rw [if_pos hclc]; exact Wf_doClose _ _ _ h3
      · rwa [if_neg hclc]

theorem processPagePR_eq_processPullRequest : processPagePR = processPullRequest := rfl

theorem Wf_foldPagePRs (l : List PR) (r : String) (c : Int) (st : UserStats) (h : Wf st) :
    Wf (l.foldl (fun s p => processPagePR p r c s) st) := by
  induction l generalizing st with
  | nil => simpa using h
  | cons p t ih =>
      simp only [List.foldl_cons]
      exact ih _ (by rw [processPagePR_eq_processPullRequest]; exact Wf_processPullRequest p r c st h)

theorem Wf_fetchLoop (fe : Nat → Int → FetchResult) (r : String) (c : Int) (fuel : Nat)
    (page : Int) (att tot : Nat) (st : UserStats) (tr : List Int) (h : Wf st) :
    Wf (fetchLoop fe r c fuel page att tot st tr).stats := by
  induction fuel generalizing page att tot st tr with
  | zero => simpa [fetchLoop] using h
  | succ n ih =>
      rw [fetchLoop]
      cases fe att page with
      | success prs =>
          dsimp only
          split
          · exact ih _ _ _ _ _ (Wf_foldPagePRs _ _ _ _ h)
          · exact Wf_foldPagePRs _ _ _ _ h
      | rateLimit => exact ih _ _ _ _ _ h
      | otherError => exact h

theorem Wf_processPullRequestsFromSearch (items : List SearchItem) (o r : String) (c : Int)
    (st : UserStats) (h : Wf st) : Wf (processPullRequestsFromSearch items o r c st) := by
  unfold processPullRequestsFromSearch
  induction items generalizing st with
  | nil => simpa using h
  | cons it t ih =>
      simp only [List.foldl_cons]
      apply ih
      cases hu : it.url_match with
      | none => simpa [hu] using h
      | some p =>
          obtain ⟨o2, r2⟩ := p
          dsimp only
          split
          · exact Wf_processPullRequest _ _ _ _ h
          · exact h

theorem Wf_processRepositoryPullRequests (search : SearchOutcome) (fe : Nat → Int → FetchResult)
    (o r : String) (c : Int) (st : UserStats) (fuel : Nat) (h : Wf st) :
    Wf (processRepositoryPullRequests search fe o r c st fuel).1 := by
  unfold processRepositoryPullRequests
  cases search with
  | ok tc items =>
      dsimp only
      split
      · exact Wf_fetchLoop _ _ _ _ _ _ _ _ _ (Wf_processPullRequestsFromSearch _ _ _ _ _ h)
      · exact Wf_processPullRequestsFromSearch _ _ _ _ _ h
  | err => exact Wf_fetchLoop _ _ _ _ _ _ _ _ _ h

theorem Wf_processCommit (r : String) (st : List String × UserStats) (cm : Commit)
    (h : Wf st.2) : Wf (processCommit r st cm).2 := by
  unfold processCommit
  by_cases hm : cm.oid ∈ st.1
  · simpa [hm] using h
  · simp only [hm, if_false]
    exact Wf_doCommit _ _ _ (Wf_ensureAuthor _ _ _ h)

theorem Wf_processRepositoryBranches (r : String) (branches : List (List Commit))
    (st : List String × UserStats) (h : Wf st.2) :
    Wf (processRepositoryBranches r branches st).2 := by
  unfold processRepositoryBranches processBranchCommits
  induction branches generalizing st with
  | nil => simpa using h
  | cons b t ih =>
      simp only [List.foldl_cons]
      apply ih
      induction b generalizing st with
      | nil => simpa using h
      | cons cm bt ihb =>
          simp only [List.foldl_cons]
          exact ihb _ (Wf_processCommit r st cm h)

/-- Fixture commit for the invariant witness. -/
def c5cm : Commit := { oid := "sha1", user := some ⟨"alice", some 5, none⟩, name := none, email := none }

/-- Fixture pull request for the invariant witness. -/
def c5pr : PR := { number := 1, user := some ⟨"alice", some 5, none⟩, created_at := 3, closed_at := some 4, updated_at := 4 }

/-- Fixture fetch oracle for the invariant witness: one page holding the
fixture PR, then empty pages. -/
def c5fe : Nat → Int → FetchResult := fun att _ =>
  if att = 0 then .success [c5pr] else .success []

/-- Claim C5: the sum invariant (each total equals the sum of the matching
per-repository map) is preserved by commit processing, by both PR paths, by
the pagination loop with all its error-recovery branches, and by the whole
per-repository PR step. -/
theorem sum_invariant_preserved (st : UserStats) (h : Wf st) (r : String) (seen : List String)
    (cm : Commit) (pr : PR) (c : Int) (fe : Nat → Int → FetchResult) (fuel : Nat) (page : Int)
    (att tot : Nat) (tr : List Int) (search : SearchOutcome) (o : String)
    (branches : List (List Commit)) :
    Wf (processCommit r (seen, st) cm).2
      ∧ Wf (processPullRequest pr r c st)
      ∧ Wf (processPagePR pr r c st)
      ∧ Wf ((fetchLoop fe r c fuel page att tot st tr).stats)
      ∧ Wf ((processRepositoryPullRequests search fe o r c st fuel).1)
      ∧ Wf ((processRepositoryBranches r branches (seen, st)).2) :=
  ⟨Wf_processCommit r (seen, st) cm h,
   Wf_processPullRequest pr r c st h,
   by rw [processPagePR_eq_processPullRequest]; exact Wf_processPullRequest pr r c st h,
   Wf_fetchLoop fe r c fuel page att tot st tr h,
   Wf_processRepositoryPullRequests search fe o r c st fuel h,
   Wf_processRepositoryBranches r branches (seen, st) h⟩

/-- Concrete instantiation of `sum_invariant_preserved` at an empty bag, one
commit on two branches, one PR, and a two-page fetch oracle. -/
theorem sum_invariant_preserved_witness :
    Wf ([] : UserStats)
      ∧ (Wf (processCommit "r" ([], []) c5cm).2
        ∧ Wf (processPullRequest c5pr "r" 0 [])
        ∧ Wf (processPagePR c5pr "r" 0 [])
        ∧ Wf ((fetchLoop c5fe "r" 0 2 1 0 0 [] []).stats)
        ∧ Wf ((processRepositoryPullRequests (.ok 0 []) c5fe "o" "r" 0 [] 2).1)
        ∧ Wf ((processRepositoryBranches "r" [[c5cm], [c5cm]] ([], [])).2)) :=
  ⟨by decide,
   sum_invariant_preserved [] (by decide) "r" [] c5cm c5pr 0 c5fe 2 1 0 0 [] (.ok 0 []) "o"
     [[c5cm], [c5cm]]⟩

/-! ### Commit deduplication (claim C4) -/

/-- Sum of a per-author valuation over the whole stats bag. -/
def sumBy (g : AuthorAcc → Nat) (st : UserStats) : Nat := (st.map (fun p => g p.2)).sum

/-- Total commits recorded in the bag, over all authors. -/
def sumTot (st : UserStats) : Nat := sumBy (·.total_commits) st

/-- Commits recorded for one repository, over all authors. -/
def sumRepoCommits (st : UserStats) (r : String) : Nat :=
  sumBy (fun acc => (lookupA acc.commits_by_repo r).getD 0) st

theorem sumBy_updateFirst_eq (g : AuthorAcc → Nat) (st : UserStats) (k : String)
    (f : AuthorAcc → AuthorAcc) (hf : ∀ acc, g (f acc) = g acc) :
    sumBy g (updateFirst st k f) = sumBy g st := by
  induction st with
  | nil => rfl
  | cons p t ih =>
      obtain ⟨a, v⟩ := p
      by_cases hak : a = k
      · simp [sumBy, updateFirst, hak, hf]
      · simp [sumBy, updateFirst, hak, hf] at ih ⊢; omega

theorem sumBy_updateFirst_succ (g : AuthorAcc → Nat) (st : UserStats) (k : String)
    (f : AuthorAcc → AuthorAcc) (hf : ∀ acc, g (f acc) = g acc + 1)
    (hs : (lookupA st k).isSome) : sumBy g (updateFirst st k f) = sumBy g st + 1 := by
  induction st with
  | nil => simp [lookupA] at hs
  | cons p t ih =>
      obtain ⟨a, v⟩ := p
      by_cases hak : a = k
      · simp [sumBy, updateFirst, hak, hf]; omega
      · simp only [lookupA, hak, if_false] at hs
        simp [sumBy, updateFirst, hak] at ih ⊢
        rw [ih hs]
        omega

theorem ensureAuthor_isSome (st : UserStats) (a : String) (u : Option Nat) :
    (lookupA (ensureAuthor st a u) a).isSome := by
  rw [lookupA_ensureAuthor]; rfl

theorem sumBy_ensureAuthor (g : AuthorAcc → Nat) (st : UserStats) (a : String) (u : Option Nat)
    (h0 : g (newAcc u) = 0) (hid : ∀ acc, g { acc with user_id := u } = g acc) :
    sumBy g (ensureAuthor st a u) = sumBy g st := by
  unfold ensureAuthor
  cases lookupA st a with
  | none => simp [sumBy, h0]
  | some acc =>
      by_cases hc : (idTruthy u && !(idTruthy acc.user_id)) = true
      · simp only [hc, if_true]
        exact sumBy_updateFirst_eq g st a _ hid
      · simp [hc]

/-- The seen set after one commit step: the oid is inserted on first sight. -/
theorem processCommit_seen (r : String) (st : List String × UserStats) (cm : Commit) :
    (processCommit r st cm).1 = if cm.oid ∈ st.1 then st.1 else cm.oid :: st.1 := by
  unfold processCommit
  split <;> simp_all

theorem processCommit_seen_toFinset (r : String) (st : List String × UserStats) (cm : Commit) :
    (processCommit r st cm).1.toFinset = insert cm.oid st.1.toFinset := by
  rw [processCommit_seen]
  by_cases hm : cm.oid ∈ st.1
  · simp only [hm, if_true]
    exact (Finset.insert_eq_self.mpr (List.mem_toFinset.mpr hm)).symm
  · simp [hm]

theorem processCommit_seen_nodup (r : String) (st : List String × UserStats) (cm : Commit)
    (h : st.1.Nodup) : (processCommit r st cm).1.Nodup := by
  rw [processCommit_seen]
  by_cases hm : cm.oid ∈ st.1
  · simpa [hm] using h
  · simp [hm, h]

theorem sumBy_processCommit (g : AuthorAcc → Nat) (r : String) (st : List String × UserStats)
    (cm : Commit) (h0 : ∀ u, g (newAcc u) = 0)
    (hid : ∀ acc u, g { acc with user_id := u } = g acc)
    (hbump : ∀ acc, g { acc with commits_by_repo := bumpCommits acc.commits_by_repo r
                                 total_commits := acc.total_commits + 1 } = g acc + 1) :
    sumBy g (processCommit r st cm).2 = sumBy g st.2 + (if cm.oid ∈ st.1 then 0 else 1) := by
  unfold processCommit
  by_cases hm : cm.oid ∈ st.1
  · simp [hm]
  · simp only [hm, if_false]
    unfold doCommit
    rw [sumBy_updateFirst_succ g _ _ _ hbump (ensureAuthor_isSome _ _ _),
      sumBy_ensureAuthor g _ _ _ (h0 _) (fun acc => hid acc _)]

/-- Counting invariant of the commit fold: the seen set accumulates exactly
the oids, stays duplicate-free, and the summed valuation grows in lockstep
with the seen set. -/
theorem commitFold_counts (g : AuthorAcc → Nat) (r : String) (cs : List Commit)
    (st : List String × UserStats) (h0 : ∀ u, g (newAcc u) = 0)
    (hid : ∀ acc u, g { acc with user_id := u } = g acc)
    (hbump : ∀ acc, g { acc with commits_by_repo := bumpCommits acc.commits_by_repo r
                                 total_commits := acc.total_commits + 1 } = g acc + 1) :
    (cs.foldl (processCommit r) st).1.toFinset = st.1.toFinset ∪ (cs.map (·.oid)).toFinset
      ∧ (st.1.Nodup → (cs.foldl (processCommit r) st).1.Nodup)
      ∧ sumBy g (cs.foldl (processCommit r) st).2 + st.1.length
          = sumBy g st.2 + (cs.foldl (processCommit r) st).1.length := by
  induction cs generalizing st with
  | nil => simp
  | cons cm t ih =>
      simp only [List.foldl_cons]
      obtain ⟨ihf, ihn, ihs⟩ := ih (processCommit r st cm) 
      refine ⟨?_, ?_, ?_⟩
      · rw [ihf, processCommit_seen_toFinset]
        simp [Finset.insert_union, Finset.union_insert]
      · intro hn
        exact ihn (processCommit_seen_nodup r st cm hn)
      · have hstep := sumBy_processCommit g r st cm h0 hid hbump
        have hlen : (processCommit r st cm).1.length
            = st.1.length + (if cm.oid ∈ st.1 then 0 else 1) := by
          rw [processCommit_seen]
          by_cases hm : cm.oid ∈ st.1 <;> simp [hm]
        by_cases hm : cm.oid ∈ st.1 <;>
          simp only [hm, if_true, if_false] at hstep hlen <;> omega

theorem processRepositoryBranches_eq_join (r : String) (branches : List (List Commit))
    (st : List String × UserStats) :
    processRepositoryBranches r branches st = branches.flatten.foldl (processCommit r) st := by
  unfold processRepositoryBranches processBranchCommits
  induction branches generalizing st with
  | nil => rfl
  | cons b t ih =>
      simp only [List.foldl_cons, List.flatten_cons, List.foldl_append]
      exact ih _

/-- After `ensureAuthor` the entry exists and its commit fields carry the
original readings. -/
theorem ensureAuthor_commit_fields (st : UserStats) (a : String) (u : Option Nat) (r : String) :
    ∃ accE, lookupA (ensureAuthor st a u) a = some accE
      ∧ accE.total_commits = totCommitsAt st a
      ∧ (lookupA accE.commits_by_repo r).getD 0 = commitsAt st a r := by
  rw [lookupA_ensureAuthor]
  cases h : lookupA st a with
  | none =>
      refine ⟨_, rfl, ?_, ?_⟩ <;> simp [newAcc, totCommitsAt, commitsAt, h, lookupA]
  | some acc =>
      by_cases hc : (idTruthy u && !(idTruthy acc.user_id)) = true
      · refine ⟨_, rfl, ?_, ?_⟩ <;> simp [hc, totCommitsAt, commitsAt, h]
      · refine ⟨_, rfl, ?_, ?_⟩ <;> simp [hc, totCommitsAt, commitsAt, h]

/-- Claim C4: within one repository pass a commit id reachable from several
branches is skipped entirely after its first occurrence; a first occurrence
adds exactly 1 to its author's commit total and repository counter; and over
a whole pass the repository's commit count (aggregated over authors, and the
per-repository counters alike) equals the number of distinct commit ids. -/
theorem commit_dedup_exactly_once (r : String) (branches : List (List Commit)) (u0 : UserStats)
    (st : List String × UserStats) (cm cm2 : Commit) (h1 : cm.oid ∈ st.1)
    (h2 : cm2.oid ∉ st.1) :
    processCommit r st cm = st
      ∧ totCommitsAt (processCommit r st cm2).2 (resolveCommitAuthor cm2)
          = totCommitsAt st.2 (resolveCommitAuthor cm2) + 1
      ∧ commitsAt (processCommit r st cm2).2 (resolveCommitAuthor cm2) r
          = commitsAt st.2 (resolveCommitAuthor cm2) r + 1
      ∧ sumTot (processRepositoryBranches r branches ([], u0)).2
          = sumTot u0 + (branches.flatten.map (fun c => c.oid)).toFinset.card
      ∧ sumRepoCommits (processRepositoryBranches r branches ([], u0)).2 r
          = sumRepoCommits u0 r + (branches.flatten.map (fun c => c.oid)).toFinset.card := by
  obtain ⟨accE, hlE, hEt, hEc⟩ :=
    ensureAuthor_commit_fields st.2 (resolveCommitAuthor cm2) (resolveCommitUid cm2) r
  have hskip : processCommit r st cm = st := by
    unfold processCommit
    simp [h1]
  have hsnd : (processCommit r st cm2).2
      = doCommit (ensureAuthor st.2 (resolveCommitAuthor cm2) (resolveCommitUid cm2))
          (resolveCommitAuthor cm2) r := by
    unfold processCommit
    simp [h2]
  have htot : totCommitsAt (processCommit r st cm2).2 (resolveCommitAuthor cm2)
      = totCommitsAt st.2 (resolveCommitAuthor cm2) + 1 := by
    rw [hsnd]
    unfold totCommitsAt
    rw [lookupA_doCommit _ _ _ _ hlE]
    simpa using hEt
  have hrep : commitsAt (processCommit r st cm2).2 (resolveCommitAuthor cm2) r
      = commitsAt st.2 (resolveCommitAuthor cm2) r + 1 := by
    rw [hsnd]
    unfold commitsAt
    rw [lookupA_doCommit _ _ _ _ hlE]
    simp only [lookupA_bumpCommits, Option.getD_some, hEc]
    rfl
  have hpassT : sumTot (processRepositoryBranches r branches ([], u0)).2
      = sumTot u0 + (branches.flatten.map (fun c => c.oid)).toFinset.card := by
    rw [processRepositoryBranches_eq_join]
    obtain ⟨hf, hn, hs⟩ := commitFold_counts (·.total_commits) r branches.flatten ([], u0)
      (fun u => rfl) (fun acc u => rfl) (fun acc => rfl)
    have hlen : (branches.flatten.foldl (processCommit r) ([], u0)).1.length
        = (branches.flatten.map (fun c => c.oid)).toFinset.card := by
      rw [← List.toFinset_card_of_nodup (hn (by simp))]
      rw [hf]
      simp
    simp only [List.length_nil] at hs
    unfold sumTot
    omega
  have hpassR : sumRepoCommits (processRepositoryBranches r branches ([], u0)).2 r
      = sumRepoCommits u0 r + (branches.flatten.map (fun c => c.oid)).toFinset.card := by
    rw [processRepositoryBranches_eq_join]
    obtain ⟨hf, hn, hs⟩ := commitFold_counts (fun acc => (lookupA acc.commits_by_repo r).getD 0)
      r branches.flatten ([], u0) (fun u => by simp [newAcc, lookupA])
      (fun acc u => rfl) (fun acc => by simp [lookupA_bumpCommits])
    have hlen : (branches.flatten.foldl (processCommit r) ([], u0)).1.length
        = (branches.flatten.map (fun c => c.oid)).toFinset.card := by
      rw [← List.toFinset_card_of_nodup (hn (by simp))]
      rw [hf]
      simp
    simp only [List.length_nil] at hs
    unfold sumRepoCommits
    omega
  exact ⟨hskip, htot, hrep, hpassT, hpassR⟩

/-- Fixture commits for the dedup witness: the same oid on two branches. -/
def c4cmA : Commit := { oid := "s1", user := some ⟨"alice", some 5, none⟩, name := none, email := none }

/-- A second fixture commit with a distinct oid. -/
def c4cmB : Commit := { oid := "s2", user := none, name := some "Bob", email := none }

/-- Concrete instantiation of `commit_dedup_exactly_once`: oid `s1` appears
on both branches yet the pass records 2 commits (2 distinct oids). -/
theorem commit_dedup_exactly_once_witness :
    ("s1" ∈ ["s1"] ∧ "s2" ∉ ["s1"])
      ∧ (processCommit "r" (["s1"], []) c4cmA = (["s1"], [])
        ∧ totCommitsAt (processCommit "r" (["s1"], []) c4cmB).2 (resolveCommitAuthor c4cmB)
            = totCommitsAt ([] : UserStats) (resolveCommitAuthor c4cmB) + 1
        ∧ commitsAt (processCommit "r" (["s1"], []) c4cmB).2 (resolveCommitAuthor c4cmB) "r"
            = commitsAt ([] : UserStats) (resolveCommitAuthor c4cmB) "r" + 1
        ∧ sumTot (processRepositoryBranches "r" [[c4cmA], [c4cmA, c4cmB]] ([], [])).2
            = sumTot [] + ([[c4cmA], [c4cmA, c4cmB]].flatten.map (fun c => c.oid)).toFinset.card
        ∧ sumRepoCommits (processRepositoryBranches "r" [[c4cmA], [c4cmA, c4cmB]] ([], [])).2 "r"
            = sumRepoCommits [] "r"
                + ([[c4cmA], [c4cmA, c4cmB]].flatten.map (fun c => c.oid)).toFinset.card) :=
  ⟨⟨by decide, by decide⟩,
   commit_dedup_exactly_once "r" [[c4cmA], [c4cmA, c4cmB]] [] (["s1"], []) c4cmA c4cmB
     (by decide) (by decide)⟩

/-! ### The zero-match stopping rule (claim C3) -/

/-- Claim C3: a fetched page whose items all fall outside the cutoff window
ends pagination unless it was a full page of 100 items and the page counter
(after the increment) is still at most 2; in particular a zero-match full
first page continues to the next page, while any zero-match page at counter
2 or beyond stops the loop. -/
theorem zeroMatchPage_stop_rule (fe : Nat → Int → FetchResult) (r : String) (c : Int)
    (fuel : Nat) (page : Int) (att tot : Nat) (st : UserStats) (tr : List Int) (prs : List PR)
    (hf : fe att page = .success prs)
    (hz : (prs.filter (fun pr => pr.updated_at ≥ c)).length = 0) :
    fetchLoop fe r c (fuel + 1) page att tot st tr =
      if prs.length = 100 ∧ page + 1 ≤ 2 then
        fetchLoop fe r c fuel (page + 1) (att + 1) tot st (page :: tr)
      else ⟨tot, st, (page :: tr).reverse, true⟩ := by
  have hfil : prs.filter (fun pr => pr.updated_at ≥ c) = [] := List.length_eq_zero.mp hz
  rw [fetchLoop, hf]
  simp only [hfil, List.foldl_nil, List.length_nil, Nat.add_zero, eq_self_iff_true, true_and,
    not_lt, gt_iff_lt]

/-- A pull request last updated before any positive cutoff. -/
def c3stale : PR := { number := 9, user := none, created_at := 0, closed_at := none, updated_at := 0 }

/-- A full page of 100 stale items. -/
def c3page1 : List PR := List.replicate 100 c3stale

/-- Fetch oracle for the C3 witness: page 1 is the full stale page, later
attempts return an empty page. -/
def c3fe : Nat → Int → FetchResult := fun att _ =>
  if att = 0 then .success c3page1 else .success []

/-- Concrete instantiation of `zeroMatchPage_stop_rule` on page 1: the
zero-match full page does not stop the loop, and the run indeed goes on to
fetch page 2. -/
theorem zeroMatchPage_stop_rule_witness :
    (c3fe 0 1 = .success c3page1
        ∧ (c3page1.filter (fun pr => pr.updated_at ≥ (100 : Int))).length = 0)
      ∧ fetchLoop c3fe "r" 100 2 1 0 0 [] [] =
          (if c3page1.length = 100 ∧ (1 : Int) + 1 ≤ 2 then
            fetchLoop c3fe "r" 100 1 2 1 0 [] [1]
          else ⟨0, [], ([1] : List Int).reverse, true⟩)
      ∧ (fetchPRsWithPagination c3fe "r" 100 [] 5).attempts = [1, 2] :=
  ⟨⟨rfl, by decide⟩,
   zeroMatchPage_stop_rule c3fe "r" 100 1 1 0 0 [] [] c3page1 rfl (by decide),
   by decide⟩

/-! ### Rate-limit retry (claim C1) -/

/-- A stale page-1 filler PR (updated before the cutoff). -/
def c1stale : PR := { number := 2, user := some ⟨"al", some 3, none⟩, created_at := 10, closed_at := none, updated_at := 10 }

/-- The single in-window PR of page 1. -/
def c1fresh : PR := { number := 3, user := some ⟨"al", some 3, none⟩, created_at := 150, closed_at := none, updated_at := 150 }

/-- Page 1 of the C1 scenario: a full page whose last item is in-window. -/
def c1page1 : List PR := List.replicate 99 c1stale ++ [c1fresh]

/-- Fetch oracle of the C1 scenario: the first fetch of page 2 (the second
attempt overall) fails with a rate-limit error; every other attempt
succeeds, page 1 always serving the same full page and page 2 an empty one. -/
def c1fe : Nat → Int → FetchResult := fun att page =>
  if att = 1 then .rateLimit
  else if page = 1 then .success c1page1 else .success []

/-- Claim C1 is violated by the code: after the rate-limit failure of the
first fetch of page 2 the loop requests page 1 again, not page 2 — the
handler decrements the page counter although the increment only runs after a
successful fetch, so the previously processed page is fetched and counted a
second time.  The attempt trace is 1, 2, 1, 2 (the claim predicts 1, 2, 2)
and the single in-window pull request of page 1 is counted twice. -/
theorem rateLimit_retries_previous_page :
    (fetchPRsWithPagination c1fe "r" 100 [] 10).attempts = [1, 2, 1, 2]
      ∧ totOpened (fetchPRsWithPagination c1fe "r" 100 [] 10).stats "al" = 2
      ∧ (fetchPRsWithPagination c1fe "r" 100 [] 10).total_prs = 2
      ∧ (c1page1.filter (fun pr => pr.updated_at ≥ (100 : Int))).length = 1 := by
  decide

/-! ### Fallback triggering and exactly-once counting (claim C7) -/

/-- Claim C7: the pagination fallback runs iff the primary search threw or
reported a total count of zero; a zero-result search (whose item list is
empty) leaves the bag untouched, so the final state equals a pure fallback
run from the input bag; and a single non-full fallback page is folded into
the bag exactly once. -/
theorem fallback_trigger_rule (fe : Nat → Int → FetchResult) (o r : String) (c : Int)
    (st : UserStats) (fuel : Nat) (tc : Nat) (items : List SearchItem) (prs : List PR)
    (hempty : tc = 0 → items = []) (hs : fe 0 1 = .success prs) (hlen : prs.length < 100) :
    (processRepositoryPullRequests (.ok tc items) fe o r c st fuel).2 = decide (tc = 0)
      ∧ (processRepositoryPullRequests .err fe o r c st fuel).2 = true
      ∧ (tc = 0 → processRepositoryPullRequests (.ok tc items) fe o r c st fuel
          = processRepositoryPullRequests .err fe o r c st fuel)
      ∧ (fetchPRsWithPagination fe r c st (fuel + 1)).stats
          = (prs.filter (fun pr => pr.updated_at ≥ c)).foldl
              (fun s p => processPagePR p r c s) st := by
  have hone : fetchLoop fe r c (fuel + 1) 1 0 0 st [] =
      ⟨0 + (prs.filter (fun pr => pr.updated_at ≥ c)).length,
       (prs.filter (fun pr => pr.updated_at ≥ c)).foldl (fun s p => processPagePR p r c s) st,
       ([1] : List Int).reverse, true⟩ := by
    rw [fetchLoop, hs]
    have : ¬(prs.length = 100 ∧
        ¬((prs.filter (fun pr => pr.updated_at ≥ c)).length = 0 ∧ (1 : Int) + 1 > 2)) := by
      intro hcon
      omega
    simp only [this, if_false]
  refine ⟨?_, rfl, ?_, ?_⟩
  · unfold processRepositoryPullRequests
    by_cases h0 : tc = 0 <;> simp [h0]
  · intro h0
    unfold processRepositoryPullRequests
    rw [hempty h0]
    simp [h0, processPullRequestsFromSearch]
  · unfold fetchPRsWithPagination
    rw [hone]

/-- A pull request for the C7 witness. -/
def c7pr : PR := { number := 4, user := some ⟨"cj", some 9, none⟩, created_at := 120, closed_at := some 130, updated_at := 130 }

/-- Fetch oracle for the C7 witness: page 1 holds exactly one PR. -/
def c7fe : Nat → Int → FetchResult := fun att _ =>
  if att = 0 then .success [c7pr] else .success []

/-- Concrete instantiation of `fallback_trigger_rule` at a zero-result
search and a one-page fallback. -/
theorem fallback_trigger_rule_witness :
    ((0 = 0 → ([] : List SearchItem) = []) ∧ c7fe 0 1 = .success [c7pr] ∧ [c7pr].length < 100)
      ∧ ((processRepositoryPullRequests (.ok 0 []) c7fe "o" "r" 100 [] 2).2 = decide (0 = 0)
        ∧ (processRepositoryPullRequests .err c7fe "o" "r" 100 [] 2).2 = true
        ∧ (0 = 0 → processRepositoryPullRequests (.ok 0 []) c7fe "o" "r" 100 [] 2
            = processRepositoryPullRequests .err c7fe "o" "r" 100 [] 2)
        ∧ (fetchPRsWithPagination c7fe "r" 100 [] (2 + 1)).stats
            = ([c7pr].filter (fun pr => pr.updated_at ≥ (100 : Int))).foldl
                (fun s p => processPagePR p "r" 100 s) []) :=
  ⟨⟨fun _ => rfl, rfl, by decide⟩,
   fallback_trigger_rule c7fe "o" "r" 100 [] 2 0 [] [c7pr] (fun _ => rfl) rfl (by decide)⟩

/-! ### Repository filter (claim C8) -/

theorem latestActivity_eq_max (x : Repo) :
    latestActivity x = max (x.pushed_at.getD 0) (x.updated_at.getD 0) := by
  unfold latestActivity
  rcases le_or_lt (x.pushed_at.getD 0) (x.updated_at.getD 0) with h | h
  · rw [if_neg (not_lt.mpr h), max_eq_right h]
  · rw [if_pos h, max_eq_left h.le]

/-- Claim C8: the filter keeps exactly the repositories whose latest
activity, the maximum of the push and update timestamps (a missing one
reading as the epoch), is at or after the cutoff; the output is an
order-preserving subsequence; and a repository missing both timestamps
survives only when the cutoff is at or before the epoch. -/
theorem filterUpdatedRepositories_rule (repos : List Repo) (c : Int) (x r0 : Repo)
    (hp : r0.pushed_at = none) (hu : r0.updated_at = none) :
    (filterUpdatedRepositories repos c).Sublist repos
      ∧ (x ∈ filterUpdatedRepositories repos c
          ↔ x ∈ repos ∧ c ≤ max (x.pushed_at.getD 0) (x.updated_at.getD 0))
      ∧ (r0 ∈ filterUpdatedRepositories repos c ↔ r0 ∈ repos ∧ c ≤ 0) := by
  have hmem : ∀ y : Repo, y ∈ filterUpdatedRepositories repos c
      ↔ y ∈ repos ∧ c ≤ max (y.pushed_at.getD 0) (y.updated_at.getD 0) := by
    intro y
    unfold filterUpdatedRepositories
    rw [List.mem_filter]
    constructor
    · rintro ⟨h1, h2⟩
      exact ⟨h1, by simpa [latestActivity_eq_max] using h2⟩
    · rintro ⟨h1, h2⟩
      exact ⟨h1, by simpa [latestActivity_eq_max] using h2⟩
  refine ⟨List.filter_sublist _, hmem x, ?_⟩
  rw [hmem r0]
  simp [hp, hu]

/-- A repository with no recorded push or update timestamp. -/
def c8bare : Repo := { name := "empty", owner_login := "o", pushed_at := none, updated_at := none }

/-- A repository pushed well before the window but updated inside it. -/
def c8live : Repo := { name := "live", owner_login := "o", pushed_at := some 10, updated_at := some 90 }

/-- Concrete instantiation of `filterUpdatedRepositories_rule`: under cutoff
50 the epoch-defaulted repository is excluded and the recently updated one
(old push, fresh update) is kept. -/
theorem filterUpdatedRepositories_rule_witness :
    (c8bare.pushed_at = none ∧ c8bare.updated_at = none)
      ∧ ((filterUpdatedRepositories [c8live, c8bare] 50).Sublist [c8live, c8bare]
        ∧ (c8live ∈ filterUpdatedRepositories [c8live, c8bare] 50
            ↔ c8live ∈ [c8live, c8bare]
                ∧ (50 : Int) ≤ max (c8live.pushed_at.getD 0) (c8live.updated_at.getD 0))
        ∧ (c8bare ∈ filterUpdatedRepositories [c8live, c8bare] 50
            ↔ c8bare ∈ [c8live, c8bare] ∧ (50 : Int) ≤ 0)) :=
  ⟨⟨rfl, rfl⟩,
   filterUpdatedRepositories_rule [c8live, c8bare] 50 c8live c8bare rfl rfl⟩

/-! ### Report generation mutates its input (claim C2) -/

/-- The post-call state of one success record: `user_stats` sorted in place,
each user with sorted repository rows. -/
def mutateStats (s : InstallationStats) : InstallationStats :=
  let us := if s.user_stats.length > 0 then jsSortDesc userKey s.user_stats else s.user_stats
  { s with user_stats := us.map sortRepoContribs }

/-- The post-call state of one result. -/
def mutateResult : InstallationResult → InstallationResult
  | .err i a m => .err i a m
  | .stats s => .stats (mutateStats s)

/-- The report lines one result contributes. -/
def resultLines : InstallationResult → List String
  | .err _ a m => [errLine a m]
  | .stats s => (statsBlock s).1

theorem statsBlock_snd (s : InstallationStats) : (statsBlock s).2 = mutateStats s := rfl

theorem foldl_reportStep (rs : List InstallationResult) (ls : List String)
    (acc : List InstallationResult) :
    rs.foldl reportStep (ls, acc)
      = (ls ++ (rs.map resultLines).flatten, acc ++ rs.map mutateResult) := by
  induction rs generalizing ls acc with
  | nil => simp
  | cons rhd t ih =>
      cases rhd with
      | err i a m =>
          simp only [List.foldl_cons, reportStep, List.map_cons, List.flatten_cons, ih,
            resultLines, mutateResult, List.append_assoc, List.singleton_append]
      | stats s2 =>
          simp only [List.foldl_cons, reportStep, List.map_cons, List.flatten_cons, ih,
            resultLines, mutateResult, statsBlock_snd, List.append_assoc, List.singleton_append]

theorem enumFrom_map_snd {α : Type} (n : Nat) (l : List α) :
    (List.enumFrom n l).map Prod.snd = l := by
  induction l generalizing n with
  | nil => rfl
  | cons a t ih => simp [List.enumFrom, ih]

/-- The JS stable sort is a permutation of its input. -/
theorem jsSortDesc_perm {α : Type} (key : α → Nat) (l : List α) :
    (jsSortDesc key l).Perm l := by
  unfold jsSortDesc sortIdx
  have h2 := (List.perm_insertionSort (jsLex key) l.enum).map Prod.snd
  rw [List.enum, enumFrom_map_snd] at h2
  exact h2

/-- Claim C2 as amended: `generateReport` renders the installation blocks in
the order the results were given and returns the joined text, but it is not
pure — each success record comes back with its `user_stats` array sorted in
place (a permutation of the original users, each of those with its
`repo_contributions` sorted in place, all other fields untouched). -/
theorem generateReport_mutating (results : List InstallationResult) (s : InstallationStats)
    (u : UserStat) :
    (generateReport results).2 = results.map mutateResult
      ∧ (generateReport results).1
          = String.intercalate "\n" ((results.map resultLines).flatten)
      ∧ (mutateStats s).id = s.id ∧ (mutateStats s).account = s.account
      ∧ (mutateStats s).account_type = s.account_type
      ∧ (mutateStats s).period_days = s.period_days
      ∧ (mutateStats s).user_stats.Perm (s.user_stats.map sortRepoContribs)
      ∧ (sortRepoContribs u).name = u.name
      ∧ (sortRepoContribs u).user_id = u.user_id
      ∧ (sortRepoContribs u).total_commits = u.total_commits
      ∧ (sortRepoContribs u).total_prs_opened = u.total_prs_opened
      ∧ (sortRepoContribs u).total_prs_closed = u.total_prs_closed
      ∧ (sortRepoContribs u).repo_contributions.Perm u.repo_contributions := by
  have hfold := foldl_reportStep results [] []
  refine ⟨?_, ?_, rfl, rfl, rfl, rfl, ?_, rfl, rfl, rfl, rfl, rfl, ?_⟩
  · unfold generateReport
    rw [hfold]
    simp
  · unfold generateReport
    rw [hfold]
    simp
  · unfold mutateStats
    by_cases hl : s.user_stats.length > 0
    · simp only [hl, if_true]
      exact (jsSortDesc_perm userKey s.user_stats).map sortRepoContribs
    · simp only [hl, if_false]
      exact List.Perm.refl _
  · unfold sortRepoContribs
    exact jsSortDesc_perm repoKey u.repo_contributions

/-- A low-total user, listed first. -/
def c2low : UserStat := { name := "low", user_id := none, total_commits := 1, total_prs_opened := 0, total_prs_closed := 0, repo_contributions := [] }

/-- A high-total user, listed second. -/
def c2high : UserStat := { name := "high", user_id := none, total_commits := 5, total_prs_opened := 0, total_prs_closed := 0, repo_contributions := [] }

/-- A success record whose users are not already in descending order. -/
def c2inst : InstallationStats := { id := 1, account := "a", account_type := "User", period_days := 7, user_stats := [c2low, c2high] }

/-- Counterexample to claim C2 as stated: `generateReport` does not leave
its input unchanged — the contained `user_stats` array comes back reordered. -/
theorem generateReport_not_pure :
    (generateReport [.stats c2inst]).2 ≠ [.stats c2inst] := by decide

/-! ### Report ordering and the period label (claim C9) -/

/-- Claim C9: the author sort and the per-repository sort are stable
descending sorts by the summed totals — the index-tagged sort is sorted
under the (key descending, original index ascending) order and is a
permutation of the index-tagged input — the rendered block follows exactly
that order, and the header label reads week for 7 days, month for 30 and
the day count otherwise. -/
theorem report_order_rule (s : InstallationStats) (l : List UserStat)
    (lr : List RepoContribution) (n : Nat) (u : UserStat) (rc : RepoContribution)
    (h7 : n ≠ 7) (h30 : n ≠ 30) (hne : s.user_stats ≠ []) :
    periodLabel 7 = "week"
      ∧ periodLabel 30 = "month"
      ∧ periodLabel n = toString n ++ " days"
      ∧ (sortIdx userKey l).Sorted (jsLex userKey)
      ∧ (sortIdx userKey l).Perm l.enum
      ∧ jsSortDesc userKey l = (sortIdx userKey l).map (·.2)
      ∧ (sortIdx repoKey lr).Sorted (jsLex repoKey)
      ∧ (sortIdx repoKey lr).Perm lr.enum
      ∧ userKey u = u.total_commits + u.total_prs_opened + u.total_prs_closed
      ∧ repoKey rc = rc.commits + rc.prs_opened + rc.prs_closed
      ∧ statsHeader s = "📊 Statistics for " ++ s.account ++ " (" ++ s.account_type
          ++ ") - Last " ++ periodLabel s.period_days ++ ":"
      ∧ (statsBlock s).1
          = statsHeader s :: (jsSortDesc userKey s.user_stats).flatMap renderUserLines ++ [""]
      ∧ renderUserLines u
          = [userNameLine (sortRepoContribs u), userTotalLine (sortRepoContribs u),
              "  Contributions by repository:"]
            ++ (jsSortDesc repoKey u.repo_contributions).map repoLine := by
  refine ⟨rfl, rfl, ?_, ?_, ?_, rfl, ?_, ?_, rfl, rfl, rfl, ?_, rfl⟩
  · simp [periodLabel, h7, h30]
  · exact List.sorted_insertionSort (jsLex userKey) l.enum
  · exact List.perm_insertionSort (jsLex userKey) l.enum
  · exact List.sorted_insertionSort (jsLex repoKey) lr.enum
  · exact List.perm_insertionSort (jsLex repoKey) lr.enum
  · unfold statsBlock
    have hl : s.user_stats.length > 0 := List.length_pos.mpr hne
    simp [hl]

/-- A success record with two out-of-order users for the C9 witness. -/
def c9a : UserStat := { name := "ann", user_id := none, total_commits := 2, total_prs_opened := 1, total_prs_closed := 2, repo_contributions := [] }

/-- The higher-total user, listed second. -/
def c9b : UserStat := { name := "ben", user_id := some 4, total_commits := 9, total_prs_opened := 2, total_prs_closed := 1, repo_contributions := [⟨"x", 1, 0, 0⟩, ⟨"y", 3, 1, 1⟩] }

/-- The witness record (period of 9 days, nonempty users). -/
def c9inst : InstallationStats := { id := 2, account := "acme", account_type := "Organization", period_days := 9, user_stats := [c9a, c9b] }

/-- Concrete instantiation of `report_order_rule` on the 9-day record. -/
theorem report_order_rule_witness :
    ((9 : Nat) ≠ 7 ∧ (9 : Nat) ≠ 30 ∧ c9inst.user_stats ≠ [])
      ∧ (periodLabel 7 = "week"
        ∧ periodLabel 30 = "month"
        ∧ periodLabel 9 = toString (9 : Nat) ++ " days"
        ∧ (sortIdx userKey [c9a, c9b]).Sorted (jsLex userKey)
        ∧ (sortIdx userKey [c9a, c9b]).Perm ([c9a, c9b]).enum
        ∧ jsSortDesc userKey [c9a, c9b] = (sortIdx userKey [c9a, c9b]).map (·.2)
        ∧ (sortIdx repoKey c9b.repo_contributions).Sorted (jsLex repoKey)
        ∧ (sortIdx repoKey c9b.repo_contributions).Perm c9b.repo_contributions.enum
        ∧ userKey c9b = c9b.total_commits + c9b.total_prs_opened + c9b.total_prs_closed
        ∧ repoKey (⟨"x", 1, 0, 0⟩ : RepoContribution) = 1 + 0 + 0
        ∧ statsHeader c9inst = "📊 Statistics for " ++ c9inst.account ++ " ("
            ++ c9inst.account_type ++ ") - Last " ++ periodLabel c9inst.period_days ++ ":"
        ∧ (statsBlock c9inst).1 = statsHeader c9inst
            :: (jsSortDesc userKey c9inst.user_stats).flatMap renderUserLines ++ [""]
        ∧ renderUserLines c9b
            = [userNameLine (sortRepoContribs c9b), userTotalLine (sortRepoContribs c9b),
                "  Contributions by repository:"]
              ++ (jsSortDesc repoKey c9b.repo_contributions).map repoLine) :=
  ⟨⟨by decide, by decide, by decide⟩,
   report_order_rule c9inst [c9a, c9b] c9b.repo_contributions 9 c9b ⟨"x", 1, 0, 0⟩
     (by decide) (by decide) (by decide)⟩

/-! ### Zero-count author rows survive to the report (claim C10) -/

/-- A pull request updated inside the window but created before the cutoff
and never closed. -/
def c10pr : PR := { number := 1, user := some ⟨"bob", some 7, none⟩, created_at := 50, closed_at := none, updated_at := 150 }

/-- The stats bag after processing that single PR against cutoff 100. -/
def c10stats : UserStats := processPullRequest c10pr "r" 100 []

/-- The resulting installation record. -/
def c10inst : InstallationStats := formatInstallationStats 1 "acct" "Organization" 7 c10stats

/-- Fetch oracle delivering that PR through the pagination fallback. -/
def c10fe : Nat → Int → FetchResult := fun att _ =>
  if att = 0 then .success [c10pr] else .success []

set_option maxRecDepth 10000 in
/-- Claim C10: a PR updated in the window but created before the cutoff and
not closed in it still creates its author accumulator and the repository PR
entry with all counters zero; the zero row survives into the user summary
and into the rendered report (and the pagination fallback produces the same
bag, since the update-time filter admits the PR). -/
theorem zero_count_author_row :
    (c10pr.created_at < 100 ∧ c10pr.closed_at = none ∧ c10pr.updated_at ≥ 100)
      ∧ c10stats = [("bob", ⟨some 7, [], [("r", ⟨0, 0⟩)], 0, 0, 0⟩)]
      ∧ (fetchPRsWithPagination c10fe "r" 100 [] 2).stats = c10stats
      ∧ c10inst.user_stats = [⟨"bob", some 7, 0, 0, 0, [⟨"r", 0, 0, 0⟩]⟩]
      ∧ (generateReport [.stats c10inst]).1
          = "📊 Statistics for acct (Organization) - Last week:\n\n👤 bob (ID: 7):\n  Total: 0 commits, 0 PRs opened, 0 PRs closed\n  Contributions by repository:\n    - r: 0 commits, 0 PRs opened, 0 PRs closed\n" := by
  decide
